import Mathlib

/-!
Shallow embedding of the gyr HTTP routing/dispatch core (router.go,
context.go, response.go) together with theorems checking the
natural-language specification of the router against the code.

Modelling conventions:
- Go strings are Lean `String`s; the few Go string-library functions the
  router uses (`strings.Split` with a one-character separator,
  `strings.HasPrefix`, `strings.TrimPrefix`) are implemented over the
  underlying character lists so that everything evaluates inside the kernel.
- Go maps (`route.handlers`, `route.variables`, the context variable bag)
  are association lists with overwrite-on-insert, which models Go map
  assignment; map iteration order in Go is unspecified, but the only
  iterated map (`route.variables`) is written with distinct keys, so the
  iteration order cannot be observed.
- Handlers and middlewares (`func(*Context)`) mutate the context they are
  given; they are modelled as functions `Context → Context`.
- The `http.ResponseWriter` is modelled by a log (`Response.sent`) of the
  `(status, body)` pairs written to it: `Response.Send` appends one entry.
  Headers are not modelled; no claim depends on them.
- The compiled `regexp.Regexp` is modelled by the sequence of regex atoms
  the compiler `createPathRegex` actually emits: a literal character, the
  wildcard `.` (emitted when a literal template segment contains a dot,
  since segment text is written into the pattern unescaped), and the
  one-or-more character class `[a-zA-Z0-9-.]+` used for variable segments.
  `reMatch` gives these atoms their regex semantics (anchored at both
  ends, exactly as the generated pattern `^...$`). Literal segments
  containing regex metacharacters other than `.` are outside the model;
  universal theorems about matching therefore restrict literal segments
  to plain characters.
-/

namespace Gyr

/-- Model of `strings.Split` with a one-character separator, on character
lists: `splitChar c` splits at every occurrence of `c`, keeping empty
fields, and returns `[[]]` on the empty string, exactly as Go does. -/
def splitChar (c : Char) : List Char → List (List Char)
  | [] => [[]]
  | a :: as =>
    match splitChar c as with
    | [] => [[]]
    | r :: rs => if a = c then [] :: r :: rs else (a :: r) :: rs

/-- Numeric value of a digit string (used by the `strconv` models). -/
def digitsToNat (ds : List Char) : Nat :=
  ds.foldl (fun a c => a * 10 + (c.toNat - 48)) 0

/-- Model of `strconv.Atoi`: an optional sign followed by at least one
decimal digit, with the value required to fit in a signed 64-bit integer
(Go's `int` on the targeted platforms); anything else is a parse error,
modelled as `none`. -/
def goAtoi (s : String) : Option Int :=
  let signed : Bool × List Char :=
    match s.data with
    | '+' :: r => (false, r)
    | '-' :: r => (true, r)
    | cs => (false, cs)
  let ds := signed.2
  if ds ≠ [] ∧ ds.all Char.isDigit then
    let v : Int := if signed.1 then -(digitsToNat ds : Int) else (digitsToNat ds : Int)
    if -(2 ^ 63) ≤ v ∧ v < 2 ^ 63 then some v else none
  else none

/-- Values of Go `float64` as `strconv.ParseFloat` can hand them to the
router: a finite value, a signed infinity, or NaN. A finite value is kept
as the exact rational the literal denotes; Go stores the nearest IEEE-754
double, a rounding no routing claim depends on (in particular an
underflowing literal parses successfully — to zero in Go, to its exact
tiny value here — and stays on the `float` branch either way). -/
inductive GoFloat where
  | finite (q : Rat)
  | inf (neg : Bool)
  | nan
deriving DecidableEq

/-- Model of `strconv`'s byte-level `lower`: set the 0x20 bit, mapping
ASCII upper-case letters to lower case and leaving every character the
parser compares against unchanged otherwise. -/
def lowerAscii (c : Char) : Char :=
  Char.ofNat (c.toNat ||| 32)

/-- Case-insensitive comparison of a character list against a lower-case
word, as `strconv`'s special-value recognition performs it. -/
def eqIgnoreCase (cs w : List Char) : Bool :=
  cs.length == w.length && (cs.zip w).all (fun p => lowerAscii p.1 == p.2)

/-- Model of `strconv`'s `special`: the whole-string forms `inf` and
`infinity` (case-insensitive, optionally signed) and the unsigned form
`nan` (case-insensitive) parse to the corresponding non-finite values;
a sign followed by `nan` is not special. -/
def special (cs : List Char) : Option GoFloat :=
  match cs with
  | '+' :: rest =>
    if eqIgnoreCase rest ['i', 'n', 'f'] ||
        eqIgnoreCase rest ['i', 'n', 'f', 'i', 'n', 'i', 't', 'y'] then
      some (GoFloat.inf false)
    else none
  | '-' :: rest =>
    if eqIgnoreCase rest ['i', 'n', 'f'] ||
        eqIgnoreCase rest ['i', 'n', 'f', 'i', 'n', 'i', 't', 'y'] then
      some (GoFloat.inf true)
    else none
  | _ =>
    if eqIgnoreCase cs ['i', 'n', 'f'] ||
        eqIgnoreCase cs ['i', 'n', 'f', 'i', 'n', 'i', 't', 'y'] then
      some (GoFloat.inf false)
    else if eqIgnoreCase cs ['n', 'a', 'n'] then some GoFloat.nan
    else none

/-- Hexadecimal digit test, case-insensitive as in `strconv.readFloat`. -/
def isHexDigit (c : Char) : Bool :=
  c.isDigit || ('a' ≤ lowerAscii c && lowerAscii c ≤ 'f')

/-- Value of a decimal or hexadecimal digit. -/
def digitVal (c : Char) : Nat :=
  if c.isDigit then c.toNat - 48 else (lowerAscii c).toNat - 87

/-- State of `strconv.readFloat`'s mantissa scan: accumulated mantissa,
number of digits seen, the digit position of the decimal point when one
was seen, and the saw-dot / saw-digits / saw-underscore flags. The model
keeps every digit exactly (Go truncates the mantissa to 19 digits and
compensates while rounding; the denoted values agree). -/
structure MantState where
  mant : Nat
  nd : Nat
  dp : Nat
  sawdot : Bool
  sawdigits : Bool
  uscore : Bool

/-- Mantissa scan of `strconv.readFloat`: digits and underscores are
consumed, one point is allowed (a second one stops the scan, as does any
other character), and the unconsumed remainder is returned. -/
def scanMant (hex : Bool) : List Char → MantState → MantState × List Char
  | [], st => (st, [])
  | c :: rest, st =>
    if c = '_' then scanMant hex rest { st with uscore := true }
    else if c = '.' then
      if st.sawdot then (st, c :: rest)
      else scanMant hex rest { st with sawdot := true, dp := st.nd }
    else if (if hex then isHexDigit c else c.isDigit) then
      scanMant hex rest
        { st with
          mant := st.mant * (if hex then 16 else 10) + digitVal c
          nd := st.nd + 1
          sawdigits := true }
    else (st, c :: rest)

/-- Digit-and-underscore tail of an exponent in `strconv.readFloat`. Go
caps the accumulated exponent near 10000 only to avoid machine overflow;
the cap cannot change whether the result is in float64 range, so the
model keeps the exact value. -/
def scanExpTail : List Char → Nat → Bool → Option (Nat × Bool)
  | [], e, us => some (e, us)
  | c :: r, e, us =>
    if c = '_' then scanExpTail r e true
    else if c.isDigit then scanExpTail r (e * 10 + (c.toNat - 48)) us
    else none

/-- Exponent part of `strconv.readFloat` under `ParseFloat`'s whole-string
requirement: a decimal literal may end after the mantissa or carry `e`/`E`
with an optional sign and a leading digit; a hexadecimal literal must
carry a `p`/`P` exponent. -/
def parseExpPart (hex : Bool) (rest : List Char) : Option (Int × Bool) :=
  match rest with
  | [] => if hex then none else some (0, false)
  | c :: r =>
    if lowerAscii c = (if hex then 'p' else 'e') then
      let signed : Bool × List Char :=
        match r with
        | '+' :: rr => (false, rr)
        | '-' :: rr => (true, rr)
        | rr => (false, rr)
      match signed.2 with
      | [] => none
      | d :: rr =>
        if d.isDigit then
          match scanExpTail rr (d.toNat - 48) false with
          | some (e, us) => some (if signed.1 then -(e : Int) else (e : Int), us)
          | none => none
        else none
    else none

/-- Loop of `strconv`'s `underscoreOK`, with `saw` tracking the class of
the previous character exactly as the Go code does (`^` start, `0` digit
or base prefix, `_` underscore, `!` anything else). -/
def underscoreOKLoop (hex : Bool) : List Char → Char → Bool
  | [], saw => saw != '_'
  | c :: rest, saw =>
    if c.isDigit || (hex && ('a' ≤ lowerAscii c && lowerAscii c ≤ 'f')) then
      underscoreOKLoop hex rest '0'
    else if c = '_' then
      if saw != '0' then false else underscoreOKLoop hex rest '_'
    else if saw == '_' then false
    else underscoreOKLoop hex rest '!'

/-- Model of `strconv.underscoreOK`: underscores must separate digits,
with an optional sign and base prefix (the prefix counting as a digit),
matching the Go numeric-literal rules. -/
def underscoreOK (cs : List Char) : Bool :=
  let body : List Char :=
    match cs with
    | '+' :: r => r
    | '-' :: r => r
    | r => r
  match body with
  | '0' :: b :: rest =>
    if lowerAscii b = 'b' ∨ lowerAscii b = 'o' ∨ lowerAscii b = 'x' then
      underscoreOKLoop (lowerAscii b = 'x') rest '0'
    else underscoreOKLoop false body '^'
  | _ => underscoreOKLoop false body '^'

/-- Exact rational `m * b ^ e`. -/
def ratScale (m : Nat) (b : Nat) (e : Int) : Rat :=
  if 0 ≤ e then ((m * b ^ e.toNat : Nat) : Rat)
  else mkRat (m : Int) (b ^ (-e).toNat)

/-- Model of `strconv.readFloat` combined with `ParseFloat`'s whole-string
requirement: optional sign, decimal or `0x` hexadecimal mantissa with
underscores and at most one point and at least one digit, a mandatory
`p` exponent for hexadecimal and an optional `e` exponent for decimal,
and the underscore-placement check over the input; the result is the
exact rational value the literal denotes (a hexadecimal mantissa scales
by powers of two, four bits per digit). -/
def readFloatValue (cs : List Char) : Option Rat :=
  let signed : Bool × List Char :=
    match cs with
    | '+' :: r => (false, r)
    | '-' :: r => (true, r)
    | r => (false, r)
  let hexed : Bool × List Char :=
    match signed.2 with
    | '0' :: x :: c3 :: r => if lowerAscii x = 'x' then (true, c3 :: r) else (false, signed.2)
    | _ => (false, signed.2)
  let scanned := scanMant hexed.1 hexed.2 ⟨0, 0, 0, false, false, false⟩
  let st := scanned.1
  if st.sawdigits = false then none
  else
    match parseExpPart hexed.1 scanned.2 with
    | none => none
    | some (e, us) =>
      if (st.uscore || us) && !underscoreOK cs then none
      else
        let dp0 : Int := if st.sawdot then (st.dp : Int) else (st.nd : Int)
        let q : Rat :=
          if hexed.1 then ratScale st.mant 2 (4 * (dp0 - (st.nd : Int)) + e)
          else ratScale st.mant 10 (dp0 - (st.nd : Int) + e)
        some (if signed.1 then -q else q)

/-- Smallest magnitude that IEEE-754 binary64 round-to-nearest-even sends
to infinity — the midpoint between the largest finite double and 2^1024:
`strconv.ParseFloat` reports `ErrRange` exactly at and above it (the tie
rounds away from the odd-mantissa largest finite value). -/
def float64Overflow : Rat :=
  (((2 ^ 54 - 1) * 2 ^ 970 : Nat) : Rat)

/-- Model of `strconv.ParseFloat` as the router uses it (router.go, line
107): first the special values `inf`/`infinity`/`nan`, otherwise a
decimal or hexadecimal literal via `readFloatValue`. A literal whose
magnitude rounds to infinity makes Go return `ErrRange` — a failure for
the router's `err == nil` check — so it is `none` here; every other
well-formed literal succeeds, with the finite value kept exact. -/
def goParseFloat (s : String) : Option GoFloat :=
  match special s.data with
  | some f => some f
  | none =>
    match readFloatValue s.data with
    | none => none
    | some q =>
      if float64Overflow ≤ (if q < 0 then -q else q) then none
      else some (GoFloat.finite q)

/-- Values a path variable can be bound to in the context variable bag:
the Go code stores an `int`, a `float64`, a `bool` or the raw `string`. -/
inductive GyrValue where
  | int (n : Int)
  | float (f : GoFloat)
  | bool (b : Bool)
  | str (s : String)
deriving DecidableEq

/-- Coercion applied to a raw path segment by `extractVariablesIntoContext`
(router.go, lines 101 to 119): try `strconv.Atoi`, then
`strconv.ParseFloat`, then the literal tokens `true`/`false` via
`strconv.ParseBool`, and otherwise keep the raw string. -/
def coerceValue (value : String) : GyrValue :=
  match goAtoi value with
  | some n => GyrValue.int n
  | none =>
    match goParseFloat value with
    | some f => GyrValue.float f
    | none =>
      if value = "true" ∨ value = "false" then GyrValue.bool (value = "true")
      else GyrValue.str value

/-- Association-list update with Go map assignment semantics: overwrite the
existing entry for the key, or append a new one. -/
def setAssoc {α : Type} (l : List (String × α)) (k : String) (v : α) : List (String × α) :=
  match l with
  | [] => [(k, v)]
  | (k1, v1) :: rest => if k1 = k then (k, v) :: rest else (k1, v1) :: setAssoc rest k v

/-- Association-list lookup, modelling a Go map read that distinguishes a
missing key (`none`, Go's zero value `nil` for function values). -/
def getAssoc {α : Type} (l : List (String × α)) (k : String) : Option α :=
  match l with
  | [] => none
  | (k1, v1) :: rest => if k1 = k then some v1 else getAssoc rest k

/-- Model of the `Response` struct (response.go): the pending status and
body, the `wasSent` flag, and the log of writes actually performed on the
underlying `http.ResponseWriter`. -/
structure Response where
  status : Int
  toWrite : String
  wasSent : Bool
  sent : List (Int × String)
deriving DecidableEq

/-- Model of `Response.Status`. -/
def Response.Status (r : Response) (statusCode : Int) : Response :=
  { r with status := statusCode }

/-- Model of `Response.Text` (the Content-Type header is not modelled). -/
def Response.Text (r : Response) (text : String) : Response :=
  { r with toWrite := r.toWrite ++ text }

/-- Model of `Response.Error`: set the status, then append the text. -/
def Response.Error (r : Response) (err : String) (statusCode : Int) : Response :=
  (r.Status statusCode).Text err

/-- Model of `Response.Send`: write the pending status and body to the
response writer (logged in `sent`) and set `wasSent`. -/
def Response.Send (r : Response) : Response :=
  { r with sent := r.sent ++ [(r.status, r.toWrite)], wasSent := true }

/-- Model of the per-request `Context` (context.go): request method and
raw URL path, the variable bag, the abort flag, and the response. -/
structure Context where
  method : String
  path : String
  vars : List (String × GyrValue)
  aborted : Bool
  response : Response
deriving DecidableEq

/-- Model of `CreateContext`: fresh variable bag, abort flag unset, and a
response with status 200, empty body and `wasSent` false. -/
def CreateContext (method path : String) : Context :=
  { method := method
    path := path
    vars := []
    aborted := false
    response := { status := 200, toWrite := "", wasSent := false, sent := [] } }

/-- Model of `Context.SetVariable`. -/
def Context.SetVariable (ctx : Context) (key : String) (value : GyrValue) : Context :=
  { ctx with vars := setAssoc ctx.vars key value }

/-- Model of `Context.Variable` (without Go's zero-value default). -/
def Context.Variable (ctx : Context) (key : String) : Option GyrValue :=
  getAssoc ctx.vars key

/-- Model of `Context.Abort`: set the abort flag. -/
def Context.Abort (ctx : Context) : Context :=
  { ctx with aborted := true }

/-- Mutation of the response held by the context, modelling a Go method
chain on the shared `ctx.Response` pointer. -/
def Context.withResp (ctx : Context) (f : Response → Response) : Context :=
  { ctx with response := f ctx.response }

/-- Atoms of the regular expressions `createPathRegex` emits: a literal
character, the wildcard `.` (any character except newline), and the
one-or-more class `[a-zA-Z0-9-.]+` emitted for a variable segment. -/
inductive RAtom where
  | ch (c : Char)
  | dot
  | clsPlus
deriving DecidableEq

/-- Membership in the character class `[a-zA-Z0-9-.]`: ASCII letters,
digits, hyphen and period. -/
def varClass (c : Char) : Bool :=
  ('a' ≤ c && c ≤ 'z') || ('A' ≤ c && c ≤ 'Z') || ('0' ≤ c && c ≤ '9') || c == '-' || c == '.'

/-- Matching semantics of an anchored sequence of atoms (the generated
pattern is always `^` atoms `$`): `reMatch rs cs` holds exactly when `cs`
is fully consumed by `rs`, with the usual nondeterministic semantics for
the one-or-more class (`x+` matches one occurrence and then either stops
or continues as `x+`). -/
def reMatch : List RAtom → List Char → Bool
  | [], cs => cs.isEmpty
  | _ :: _, [] => false
  | RAtom.ch a :: rs, c :: cs => a == c && reMatch rs cs
  | RAtom.dot :: rs, c :: cs => c != '\n' && reMatch rs cs
  | RAtom.clsPlus :: rs, c :: cs => varClass c && (reMatch rs cs || reMatch (RAtom.clsPlus :: rs) cs)

/-- Model of the `Route` struct (router.go): the registration path, the
compiled pattern, the method-to-handler map, the route-local middlewares
and the variable-name-to-segment-index map. -/
structure Route where
  Path : String
  pattern : List RAtom
  handlers : List (String × (Context → Context))
  middlewares : List (Context → Context)
  vars : List (String × Nat)

/-- Atoms emitted for one non-empty template segment: a variable segment
(leading `:`) contributes `/[a-zA-Z0-9-.]+`; any other segment contributes
`/` followed by its text written into the pattern unescaped, so a `.`
in the text becomes the regex wildcard. -/
def segAtoms (part : List Char) : List RAtom :=
  if part.head? = some ':' then [RAtom.ch '/', RAtom.clsPlus]
  else RAtom.ch '/' :: part.map (fun c => if c = '.' then RAtom.dot else RAtom.ch c)

/-- Fold step of `createPathRegex` over the indexed template segments:
empty segments are skipped, a variable segment extends the pattern and
records its name at the segment index, and a literal segment extends the
pattern with its atoms. -/
def regexStep (acc : List RAtom × List (String × Nat)) (ip : Nat × List Char) : List RAtom × List (String × Nat) :=
  if ip.2.isEmpty then acc
  else if ip.2.head? = some ':' then
    (acc.1 ++ [RAtom.ch '/', RAtom.clsPlus], setAssoc acc.2 (String.mk (ip.2.drop 1)) ip.1)
  else (acc.1 ++ (RAtom.ch '/' :: ip.2.map (fun c => if c = '.' then RAtom.dot else RAtom.ch c)), acc.2)

/-- Model of `createPathRegex` (router.go, lines 146 to 170): the root
template `/` compiles to `^/$`; any other template is split on `/` and
each non-empty segment contributes its atoms, with variable names recorded
at their index in the split. The returned pair is the compiled pattern and
the variable map. -/
def createPathRegex (path : String) : List RAtom × List (String × Nat) :=
  if path = "/" then ([RAtom.ch '/'], [])
  else ((splitChar '/' path.data).enum.foldl regexStep ([], []))

/-- Model of `createRoute`: empty handler map and middleware list, pattern
and variable map from `createPathRegex`. -/
def createRoute (path : String) : Route :=
  { Path := path
    pattern := (createPathRegex path).1
    handlers := []
    middlewares := []
    vars := (createPathRegex path).2 }

/-- Model of `Route.MatchesPath`: run the compiled pattern. -/
def Route.MatchesPath (route : Route) (path : String) : Bool :=
  reMatch route.pattern path.data

/-- Model of the unexported `Route.method`: register (or overwrite) the
handler for an HTTP method. -/
def Route.method (route : Route) (m : String) (handler : Context → Context) : Route :=
  { route with handlers := setAssoc route.handlers m handler }

/-- Model of `Route.Get`. -/
def Route.Get (route : Route) (handler : Context → Context) : Route :=
  route.method "GET" handler

/-- Model of `Route.Post`. -/
def Route.Post (route : Route) (handler : Context → Context) : Route :=
  route.method "POST" handler

/-- Model of `Route.Middleware`: append route-local middlewares. -/
def Route.Middleware (route : Route) (middleware : List (Context → Context)) : Route :=
  { route with middlewares := route.middlewares ++ middleware }

mutual
/-- Model of the `RouterMatchable` interface: its two implementations are
`*Route` and `*RouteGroup`, so a matchable is exactly one of the two. -/
inductive RouterMatchable where
  | route (r : Route)
  | group (g : RouteGroup)

/-- Model of the `RouteGroup` struct: prefix (field `Prefix` in Go,
renamed `Pre` here), group-local middlewares, and child matchables. -/
inductive RouteGroup where
  | mk (Pre : String) (middlewares : List (Context → Context)) (routes : List RouterMatchable)
end

/-- Prefix of a group (Go field `Prefix`). -/
def RouteGroup.Pre : RouteGroup → String
  | .mk p _ _ => p

/-- Middlewares of a group. -/
def RouteGroup.middlewares : RouteGroup → List (Context → Context)
  | .mk _ m _ => m

/-- Child matchables of a group. -/
def RouteGroup.routes : RouteGroup → List RouterMatchable
  | .mk _ _ r => r

/-- Model of `strings.HasPrefix`. -/
def goHasPre (s pre : String) : Bool :=
  pre.data.isPrefixOf s.data

/-- Model of `strings.TrimPrefix`: drop the prefix when present, otherwise
return the string unchanged. -/
def goTrimPre (s pre : String) : String :=
  if goHasPre s pre then String.mk (s.data.drop pre.data.length) else s

/-- Model of `RouteGroup.MatchesPath`: a plain string-prefix check. -/
def RouteGroup.MatchesPath (group : RouteGroup) (path : String) : Bool :=
  goHasPre path group.Pre

/-- Model of `createGroup`: empty children and middleware list. -/
def createGroup (pre : String) : RouteGroup :=
  RouteGroup.mk pre [] []

/-- Dispatch of the interface call `routeOrGroup.MatchesPath(path)`. -/
def RouterMatchable.MatchesPath (m : RouterMatchable) (path : String) : Bool :=
  match m with
  | .route r => r.MatchesPath path
  | .group g => g.MatchesPath path

/-- Model of `searchRoute` (router.go, lines 244 to 262): scan the
matchables in order; the first whose `MatchesPath` accepts either is a
route (returned immediately) or a group, in which case the group prefix is
stripped and the search recurses into the children, falling through to the
remaining matchables when no child yields a route. -/
def searchRoute : List RouterMatchable → String → Option Route
  | [], _ => none
  | m :: rest, path =>
    if m.MatchesPath path then
      match m with
      | .route r => some r
      | .group (.mk pre _ children) =>
        match searchRoute children (goTrimPre path pre) with
        | some r => some r
        | none => searchRoute rest path
    else searchRoute rest path

/-- Model of `RouteGroup.findInGroup`. -/
def RouteGroup.findInGroup (group : RouteGroup) (path : String) : Option Route :=
  searchRoute group.routes path

/-- Model of `RouteGroup.Path`: create a child route, pre-seed it with the
group middlewares current at registration time, and append it to the
children; the pair returned is the updated group and the new route (in Go
the group is mutated in place and the route pointer returned). -/
def RouteGroup.Path (group : RouteGroup) (path : String) : RouteGroup × Route :=
  let route := createRoute path
  let route := { route with middlewares := route.middlewares ++ group.middlewares }
  (RouteGroup.mk group.Pre group.middlewares (group.routes ++ [RouterMatchable.route route]), route)

/-- Model of `RouteGroup.Group`: create a nested group (note that
`createGroup` starts it with an empty middleware list) and append it to
the children. -/
def RouteGroup.Group (group : RouteGroup) (pre : String) : RouteGroup × RouteGroup :=
  let nested := createGroup pre
  (RouteGroup.mk group.Pre group.middlewares (group.routes ++ [RouterMatchable.group nested]), nested)

/-- Model of `RouteGroup.Middleware`: append to the group middleware list
(children already registered are not revisited). -/
def RouteGroup.Middleware (group : RouteGroup) (middleware : List (Context → Context)) : RouteGroup :=
  RouteGroup.mk group.Pre (group.middlewares ++ middleware) group.routes

/-- Model of the `Router` struct: the route table and the global
middlewares (the logger is not modelled; it only emits log lines). -/
structure Router where
  routes : List RouterMatchable
  middlewares : List (Context → Context)

/-- Model of `Router.FindRoute`. -/
def Router.FindRoute (router : Router) (path : String) : Option Route :=
  searchRoute router.routes path

/-- Model of `Router.Path`. -/
def Router.Path (router : Router) (path : String) : Router × Route :=
  let route := createRoute path
  ({ router with routes := router.routes ++ [RouterMatchable.route route] }, route)

/-- Model of `Router.Group`. -/
def Router.Group (router : Router) (pre : String) : Router × RouteGroup :=
  let group := createGroup pre
  ({ router with routes := router.routes ++ [RouterMatchable.group group] }, group)

/-- Model of `Router.Middleware`. -/
def Router.Middleware (router : Router) (middleware : List (Context → Context)) : Router :=
  { router with middlewares := router.middlewares ++ middleware }

/-- Model of `extractVariablesIntoContext` (router.go, lines 96 to 121):
split the raw request path on `/` and bind each declared variable from the
segment at its recorded index, coerced by `coerceValue`. Go iterates the
`variables` map in unspecified order and indexes the slice directly
(panicking if the index were out of range); the model iterates in list
order — the keys are distinct, so the resulting bag is the same — and
reads out-of-range indices as the empty string, a case no dispatch of a
matched route produces. -/
def extractVariablesIntoContext (route : Route) (ctx : Context) : Context :=
  let urlParts := splitChar '/' ctx.path.data
  route.vars.foldl
    (fun c nv => c.SetVariable nv.1 (coerceValue (String.mk ((urlParts.get? nv.2).getD []))))
    ctx

/-- Loop body of `runMiddlewares`: run each middleware in order, stopping
with `false` as soon as the context is aborted after an invocation. -/
def runMwLoop : List (Context → Context) → Context → Bool × Context
  | [], ctx => (true, ctx)
  | m :: rest, ctx =>
    let ctx := m ctx
    if ctx.aborted then (false, ctx) else runMwLoop rest ctx

/-- Model of `runMiddlewares` (router.go, lines 264 to 277): an already
aborted context short-circuits to `false` before any middleware runs. The
returned pair is the Go boolean result and the context after the
middlewares that actually ran. -/
def runMiddlewares (middlewares : List (Context → Context)) (ctx : Context) : Bool × Context :=
  if ctx.aborted then (false, ctx)
  else runMwLoop middlewares ctx

/-- Tail of the handler branch of `ServeHTTP`: invoke the handler, then
send the response unless the handler already sent it. -/
def invokeHandler (handler : Context → Context) (context : Context) : Context :=
  let context := handler context
  if context.response.wasSent then context else context.withResp Response.Send

/-- Model of `Router.ServeHTTP` (router.go, lines 36 to 74): resolve the
path (404 on a miss), look up the method handler (405 on a miss), extract
variables when the route declares any, run the combined global-then-local
middleware chain when it is non-empty (sending the pending response as-is
when the chain aborts), and otherwise invoke the handler and send unless
the handler already sent. The returned context is the final state of the
per-request context, whose `response.sent` logs every write performed. -/
def Router.ServeHTTP (router : Router) (method path : String) : Context :=
  let context := CreateContext method path
  match router.FindRoute path with
  | none => context.withResp (fun r => (r.Error "404 - Not Found" 404).Send)
  | some route =>
    match getAssoc route.handlers method with
    | some handler =>
      let context :=
        if route.vars.length > 0 then extractVariablesIntoContext route context else context
      if route.middlewares.length > 0 ∨ router.middlewares.length > 0 then
        let res := runMiddlewares (router.middlewares ++ route.middlewares) context
        if res.1 then invokeHandler handler res.2
        else res.2.withResp Response.Send
      else invokeHandler handler context
    | none => context.withResp (fun r => (r.Error "405 - Method Not Allowed" 405).Send)

/-- Characters with no special regular-expression meaning (ASCII letters,
digits, hyphen, underscore): literal template segments made of these are
written into the generated pattern unchanged in meaning, so the model
`reMatch` is faithful to `regexp` for them. -/
def plainChar (c : Char) : Bool :=
  ('a' ≤ c && c ≤ 'z') || ('A' ≤ c && c ≤ 'Z') || ('0' ≤ c && c ≤ '9') || c == '-' || c == '_'

/-- Atoms contributed by a template segment inside the fold of
`createPathRegex` (empty segments contribute nothing). -/
def emitAtoms (p : List Char) : List RAtom :=
  if p.isEmpty then [] else segAtoms p

/-- Pattern obtained by concatenating the atoms of every segment. -/
def patternOf (parts : List (List Char)) : List RAtom :=
  parts.flatMap emitAtoms

/-- Specification-side acceptance predicate, written from the claim: the
path consists of exactly the given template segments in order, each
preceded by a slash, a literal segment (no leading colon) matched
verbatim, and a variable segment (leading colon) matched by one or more
characters of the class letters, digits, hyphen, period. -/
inductive SegsAccept : List (List Char) → List Char → Prop where
  | nil : SegsAccept [] []
  | lit (seg : List Char) (segs : List (List Char)) (rest : List Char)
      (hseg : seg.head? ≠ some ':') (h : SegsAccept segs rest) :
      SegsAccept (seg :: segs) ('/' :: (seg ++ rest))
  | varCase (seg : List Char) (segs : List (List Char)) (v rest : List Char)
      (hseg : seg.head? = some ':') (hne : v ≠ []) (hcls : v.all varClass = true)
      (h : SegsAccept segs rest) :
      SegsAccept (seg :: segs) ('/' :: (v ++ rest))

/-- Contract on a middleware that populates the response without sending
it itself: the send log and the `wasSent` flag are left unchanged. -/
def MwNoSend (m : Context → Context) : Prop :=
  ∀ ctx : Context, ((m ctx).response.sent = ctx.response.sent) ∧
    ((m ctx).response.wasSent = ctx.response.wasSent)

/-- Contract on a terminal handler that uses the response API correctly:
started from a fresh response it either does not send (flag still unset,
log still empty) or sends exactly once (flag set, one log entry). -/
def SendsAtMostOnce (h : Context → Context) : Prop :=
  ∀ ctx : Context, ctx.response.wasSent = false → ctx.response.sent = [] →
    (((h ctx).response.wasSent = false ∧ (h ctx).response.sent = []) ∨
     ((h ctx).response.wasSent = true ∧ (h ctx).response.sent.length = 1))

/-! Helper lemmas shared by the claim theorems. -/

theorem getAssoc_setAssoc_self {α : Type} (l : List (String × α)) (k : String) (v : α) :
    getAssoc (setAssoc l k v) k = some v := by
  induction l with
  | nil => simp [setAssoc, getAssoc]
  | cons hd tl ih =>
    obtain ⟨k1, v1⟩ := hd
    by_cases h : k1 = k
    · simp [setAssoc, getAssoc, h]
    · simp [setAssoc, getAssoc, h, ih]

theorem getAssoc_setAssoc_other {α : Type} (l : List (String × α)) (k k2 : String) (v : α)
    (h : k2 ≠ k) : getAssoc (setAssoc l k v) k2 = getAssoc l k2 := by
  have hne : k ≠ k2 := fun e => h e.symm
  induction l with
  | nil => simp [setAssoc, getAssoc, hne]
  | cons hd tl ih =>
    obtain ⟨k1, v1⟩ := hd
    by_cases h1 : k1 = k
    · subst h1
      simp [setAssoc, getAssoc, hne]
    · simp [setAssoc, getAssoc, h1, ih]

theorem searchRoute_nil (path : String) : searchRoute [] path = none := by
  simp [searchRoute]

theorem searchRoute_cons_route (r : Route) (rest : List RouterMatchable) (path : String)
    (h : r.MatchesPath path = true) :
    searchRoute (RouterMatchable.route r :: rest) path = some r := by
  simp [searchRoute, RouterMatchable.MatchesPath, h]

theorem searchRoute_cons_no_match (m : RouterMatchable) (rest : List RouterMatchable)
    (path : String) (h : m.MatchesPath path = false) :
    searchRoute (m :: rest) path = searchRoute rest path := by
  cases m with
  | route r =>
    simp only [RouterMatchable.MatchesPath] at h
    simp [searchRoute, RouterMatchable.MatchesPath, h]
  | group g =>
    obtain ⟨pre, mws, children⟩ := g
    simp only [RouterMatchable.MatchesPath] at h
    simp [searchRoute, RouterMatchable.MatchesPath, h]

theorem searchRoute_cons_group_hit (pre : String) (mws : List (Context → Context))
    (children rest : List RouterMatchable) (path : String) (r : Route)
    (hm : (RouteGroup.mk pre mws children).MatchesPath path = true)
    (hc : searchRoute children (goTrimPre path pre) = some r) :
    searchRoute (RouterMatchable.group (RouteGroup.mk pre mws children) :: rest) path = some r := by
  simp [searchRoute, RouterMatchable.MatchesPath, hm, hc]

theorem searchRoute_cons_group_miss (pre : String) (mws : List (Context → Context))
    (children rest : List RouterMatchable) (path : String)
    (hm : (RouteGroup.mk pre mws children).MatchesPath path = true)
    (hc : searchRoute children (goTrimPre path pre) = none) :
    searchRoute (RouterMatchable.group (RouteGroup.mk pre mws children) :: rest) path
      = searchRoute rest path := by
  simp [searchRoute, RouterMatchable.MatchesPath, hm, hc]

/-- C7: for every `RouteGroup` and every path, `RouteGroup.MatchesPath`
returns true if and only if the path starts with the group prefix string,
with no segment-boundary enforcement; in particular a group with prefix
`/account` matches the path `/accountancy`. -/
theorem group_matches_iff_string_starts_with :
    (∀ (g : RouteGroup) (path : String),
      g.MatchesPath path = true ↔ ∃ rest : String, path = g.Pre ++ rest) ∧
    (createGroup "/account").MatchesPath "/accountancy" = true := by
  refine ⟨fun g path => ?_, by decide⟩
  simp only [RouteGroup.MatchesPath, goHasPre, List.isPrefixOf_iff_prefix]
  constructor
  · rintro ⟨t, ht⟩
    refine ⟨⟨t⟩, String.ext ?_⟩
    rw [String.data_append]
    exact ht.symm
  · rintro ⟨rest, hrest⟩
    exact ⟨rest.data, by rw [hrest, String.data_append]⟩

/-- C9: the root template `/` compiles to a matcher that accepts the root
path and nothing else: `Route.MatchesPath` of `createRoute "/"` holds for
a path exactly when that path is `/`. -/
theorem root_template_matches_only_root :
    ∀ path : String, (createRoute "/").MatchesPath path = true ↔ path = "/" := by
  intro path
  obtain ⟨cs⟩ := path
  show reMatch [RAtom.ch '/'] cs = true ↔ String.mk cs = "/"
  rw [String.ext_iff]
  show reMatch [RAtom.ch '/'] cs = true ↔ cs = ['/']
  match cs with
  | [] => simp [reMatch]
  | c :: cs =>
    simp [reMatch, List.isEmpty_iff, eq_comm (a := '/')]

/-- C10: a context whose abort flag is already set short-circuits
`runMiddlewares` to `false` with the context returned untouched (no
middleware runs), and the abort flag is one-way: `Context.Abort` only sets
it, while the other core context operations (`CreateContext`,
`SetVariable`, variable extraction, response mutation) never change it. -/
theorem aborted_context_skips_chain :
    (∀ (middlewares : List (Context → Context)) (ctx : Context),
      ctx.aborted = true → runMiddlewares middlewares ctx = (false, ctx)) ∧
    (∀ ctx : Context, Context.Abort ctx = { ctx with aborted := true }) ∧
    (∀ (ctx : Context) (key : String) (v : GyrValue),
      (ctx.SetVariable key v).aborted = ctx.aborted) ∧
    (∀ (route : Route) (ctx : Context),
      (extractVariablesIntoContext route ctx).aborted = ctx.aborted) ∧
    (∀ (ctx : Context) (f : Response → Response), (ctx.withResp f).aborted = ctx.aborted) ∧
    (∀ method path : String, (CreateContext method path).aborted = false) := by
  refine ⟨fun mws ctx h => by simp [runMiddlewares, h], fun ctx => rfl,
    fun ctx key v => rfl, fun route ctx => ?_, fun ctx f => rfl, fun method path => rfl⟩
  simp only [extractVariablesIntoContext]
  generalize splitChar '/' ctx.path.data = parts
  induction route.vars generalizing ctx with
  | nil => rfl
  | cons hd tl ih => exact (ih (ctx.SetVariable hd.1 _)).trans rfl

/-- C10 witness: a concrete aborted context is returned unchanged with
result `false` even though a middleware is present. -/
theorem aborted_context_skips_chain_witness :
    runMiddlewares [fun c => c.withResp (Response.Text · "late")]
        (Context.Abort (CreateContext "GET" "/"))
      = (false, Context.Abort (CreateContext "GET" "/")) :=
  aborted_context_skips_chain.1 _ _ rfl

/-- C8 (amended): a child Route registered through `RouteGroup.Path` is
pre-seeded with exactly the group middleware list current at registration
time, and middlewares added to the group afterwards do not touch children
already registered (registration only appends to the group list); a
nested group created through `RouteGroup.Group`, however, is NOT seeded —
it starts with an empty middleware list regardless of the parent list. -/
theorem group_child_seeding :
    (∀ (g : RouteGroup) (path : String),
      ((g.Path path).2).middlewares = g.middlewares ∧
      ((g.Path path).1).routes = g.routes ++ [RouterMatchable.route (g.Path path).2] ∧
      ((g.Path path).1).middlewares = g.middlewares) ∧
    (∀ (g : RouteGroup) (mw : List (Context → Context)),
      (g.Middleware mw).routes = g.routes ∧
      (g.Middleware mw).middlewares = g.middlewares ++ mw) ∧
    (∀ (g : RouteGroup) (pre : String),
      ((g.Group pre).2).middlewares = [] ∧
      ((g.Group pre).1).routes = g.routes ++ [RouterMatchable.group (g.Group pre).2]) := by
  refine ⟨fun g path => ⟨?_, rfl, rfl⟩, fun g mw => ⟨rfl, rfl⟩, fun g pre => ⟨rfl, rfl⟩⟩
  simp [RouteGroup.Path, createRoute, RouteGroup.middlewares]

/-- C8 counterexample: a nested group created under a group that already
carries one interceptor starts with zero interceptors, so nested groups
are not pre-seeded with the parent group interceptor list. -/
theorem group_nested_no_inherit_counterexample :
    (((createGroup "/g").Middleware [fun c => c.Abort]).Group "/n").2.middlewares.length = 0 ∧
    ((createGroup "/g").Middleware [fun c => c.Abort]).middlewares.length = 1 :=
  ⟨rfl, rfl⟩

/-- C1: route-table resolution scans the matchables in registration order
and is completely characterised by: the empty table resolves nothing; a
leading route whose matcher accepts is returned at once; a leading
matchable whose matcher rejects is skipped; a leading group whose prefix
matches and whose children (searched with the prefix stripped) yield a
route makes the search return that route; and a leading group whose
prefix matches but whose children yield nothing falls through to the
remaining matchables instead of stopping. -/
theorem searchRoute_first_match_spec :
    (∀ path : String, searchRoute [] path = none) ∧
    (∀ (r : Route) (rest : List RouterMatchable) (path : String),
      r.MatchesPath path = true →
      searchRoute (RouterMatchable.route r :: rest) path = some r) ∧
    (∀ (m : RouterMatchable) (rest : List RouterMatchable) (path : String),
      m.MatchesPath path = false →
      searchRoute (m :: rest) path = searchRoute rest path) ∧
    (∀ (pre : String) (mws : List (Context → Context)) (children rest : List RouterMatchable)
        (path : String) (r : Route),
      (RouteGroup.mk pre mws children).MatchesPath path = true →
      searchRoute children (goTrimPre path pre) = some r →
      searchRoute (RouterMatchable.group (RouteGroup.mk pre mws children) :: rest) path = some r) ∧
    (∀ (pre : String) (mws : List (Context → Context)) (children rest : List RouterMatchable)
        (path : String),
      (RouteGroup.mk pre mws children).MatchesPath path = true →
      searchRoute children (goTrimPre path pre) = none →
      searchRoute (RouterMatchable.group (RouteGroup.mk pre mws children) :: rest) path
        = searchRoute rest path) :=
  ⟨searchRoute_nil, searchRoute_cons_route, searchRoute_cons_no_match,
    searchRoute_cons_group_hit, searchRoute_cons_group_miss⟩

/-- C1 witness: the fall-through scenario of the test suite — a group
with prefix `/account` holding only `/delete` does not shadow the route
`/account/create` registered on the router after the group. -/
theorem searchRoute_first_match_spec_witness :
    searchRoute
      [RouterMatchable.group
        (RouteGroup.mk "/account" [] [RouterMatchable.route (createRoute "/delete")]),
       RouterMatchable.route (createRoute "/account/create")] "/account/create"
      = some (createRoute "/account/create") := by
  rw [searchRoute_first_match_spec.2.2.2.2 "/account" []
    [RouterMatchable.route (createRoute "/delete")] _ "/account/create" (by decide)
    (by simp +decide [searchRoute])]
  exact searchRoute_first_match_spec.2.1 _ _ _ (by decide)

/-- C6: when no matchable resolves the path, dispatch writes exactly one
terminal response, status 404 with the fixed body `404 - Not Found`, with
no variable binding and no dependence on the middleware chain; when the
route resolves but has no handler for the method, dispatch writes exactly
one terminal response, status 405 with the fixed body
`405 - Method Not Allowed`, again with no variable binding and no
dependence on the middleware chain (interceptors never run). -/
theorem not_found_and_method_not_allowed :
    ∀ (router : Router) (method path : String),
      (router.FindRoute path = none →
        (router.ServeHTTP method path).response.sent = [((404 : Int), "404 - Not Found")] ∧
        (router.ServeHTTP method path).vars = [] ∧
        (router.ServeHTTP method path).aborted = false ∧
        router.ServeHTTP method path = Router.ServeHTTP ⟨router.routes, []⟩ method path) ∧
      (∀ route : Route, router.FindRoute path = some route →
        getAssoc route.handlers method = none →
        (router.ServeHTTP method path).response.sent = [((405 : Int), "405 - Method Not Allowed")] ∧
        (router.ServeHTTP method path).vars = [] ∧
        router.ServeHTTP method path = Router.ServeHTTP ⟨router.routes, []⟩ method path) := by
  refine fun router method path => ⟨fun h => ?_, fun route h hh => ?_⟩
  · have e : router.ServeHTTP method path
        = (CreateContext method path).withResp (fun r => (r.Error "404 - Not Found" 404).Send) := by
      simp only [Router.ServeHTTP, h]
    have e2 : Router.ServeHTTP ⟨router.routes, []⟩ method path
        = (CreateContext method path).withResp (fun r => (r.Error "404 - Not Found" 404).Send) := by
      have h2 : Router.FindRoute ⟨router.routes, []⟩ path = none := h
      simp only [Router.ServeHTTP, h2]
    exact ⟨by rw [e]; rfl, by rw [e]; rfl, by rw [e]; rfl, e.trans e2.symm⟩
  · have e : router.ServeHTTP method path
        = (CreateContext method path).withResp (fun r => (r.Error "405 - Method Not Allowed" 405).Send) := by
      simp only [Router.ServeHTTP, h, hh]
    have e2 : Router.ServeHTTP ⟨router.routes, []⟩ method path
        = (CreateContext method path).withResp (fun r => (r.Error "405 - Method Not Allowed" 405).Send) := by
      have h2 : Router.FindRoute ⟨router.routes, []⟩ path = some route := h
      simp only [Router.ServeHTTP, h2, hh]
    exact ⟨by rw [e]; rfl, by rw [e]; rfl, e.trans e2.symm⟩

/-- C6 witness: an empty router turns any request into the fixed 404
response, and a router holding only a GET route answers a POST to that
path with the fixed 405 response. -/
theorem not_found_and_method_not_allowed_witness :
    (Router.ServeHTTP ⟨[], []⟩ "GET" "/nope").response.sent
      = [((404 : Int), "404 - Not Found")] ∧
    (Router.ServeHTTP ⟨[RouterMatchable.route ((createRoute "/test").Get (fun c => c))], []⟩
        "POST" "/test").response.sent
      = [((405 : Int), "405 - Method Not Allowed")] := by
  constructor
  · exact ((not_found_and_method_not_allowed ⟨[], []⟩ "GET" "/nope").1
      (by simp [Router.FindRoute, searchRoute])).1
  · exact ((not_found_and_method_not_allowed
      ⟨[RouterMatchable.route ((createRoute "/test").Get (fun c => c))], []⟩ "POST" "/test").2
      ((createRoute "/test").Get (fun c => c))
      (by simp +decide [Router.FindRoute, searchRoute, RouterMatchable.MatchesPath]) rfl).1

theorem runMwLoop_complete (mws : List (Context → Context)) (ctx : Context)
    (h : ∀ (pre : List (Context → Context)) (m : Context → Context) post,
      mws = pre ++ m :: post → (m (pre.foldl (fun c f => f c) ctx)).aborted = false) :
    runMwLoop mws ctx = (true, mws.foldl (fun c f => f c) ctx) := by
  induction mws generalizing ctx with
  | nil => rfl
  | cons m rest ih =>
    have h0 : (m ctx).aborted = false := h [] m rest rfl
    show (if (m ctx).aborted then ((false : Bool), m ctx) else runMwLoop rest (m ctx))
      = (true, (m :: rest).foldl (fun c f => f c) ctx)
    rw [h0]
    simp only [Bool.false_eq_true, if_false, List.foldl_cons]
    exact ih (m ctx) (fun pre m1 post hsplit => by
      have := h (m :: pre) m1 post (by rw [hsplit, List.cons_append])
      simpa using this)

/-- C5: the interceptor chain is the router-global middlewares followed by
the route-local middlewares, each in registration order, and
`runMiddlewares` is characterised by: an empty chain completes at once; a
middleware that leaves the abort flag unset passes the context it produced
to the rest of the chain; a middleware that sets the abort flag stops the
chain immediately with result `false` and the context it produced; a chain
none of whose invocations abort completes with result `true` and the
left-to-right composition of the middlewares; and on a dispatch that
resolves a route and a handler with a non-empty combined chain, the
dispatcher runs exactly `runMiddlewares` on
`router.middlewares ++ route.middlewares`, invoking the handler only when
the result is `true` and otherwise sending the response state of the
chain output as-is. -/
theorem middleware_chain_spec :
    (∀ ctx : Context, ctx.aborted = false → runMiddlewares [] ctx = (true, ctx)) ∧
    (∀ (m : Context → Context) (rest : List (Context → Context)) (ctx : Context),
      ctx.aborted = false → (m ctx).aborted = false →
      runMiddlewares (m :: rest) ctx = runMiddlewares rest (m ctx)) ∧
    (∀ (m : Context → Context) (rest : List (Context → Context)) (ctx : Context),
      ctx.aborted = false → (m ctx).aborted = true →
      runMiddlewares (m :: rest) ctx = (false, m ctx)) ∧
    (∀ (mws : List (Context → Context)) (ctx : Context), ctx.aborted = false →
      (∀ (pre : List (Context → Context)) (m : Context → Context) post,
        mws = pre ++ m :: post → (m (pre.foldl (fun c f => f c) ctx)).aborted = false) →
      runMiddlewares mws ctx = (true, mws.foldl (fun c f => f c) ctx)) ∧
    (∀ (router : Router) (route : Route) (handler : Context → Context) (method path : String),
      router.FindRoute path = some route →
      getAssoc route.handlers method = some handler →
      (route.middlewares.length > 0 ∨ router.middlewares.length > 0) →
      router.ServeHTTP method path =
        (let ctx1 :=
          if route.vars.length > 0 then extractVariablesIntoContext route (CreateContext method path)
          else CreateContext method path
         let res := runMiddlewares (router.middlewares ++ route.middlewares) ctx1
         if res.1 then invokeHandler handler res.2 else res.2.withResp Response.Send)) := by
  refine ⟨fun ctx h => by simp [runMiddlewares, h, runMwLoop],
    fun m rest ctx h hm => ?_, fun m rest ctx h hm => ?_,
    fun mws ctx h hall => ?_, fun router route handler method path hf hh hm => ?_⟩
  · simp [runMiddlewares, h, hm, runMwLoop]
  · simp [runMiddlewares, h, hm, runMwLoop]
  · simp only [runMiddlewares, h, Bool.false_eq_true, if_false]
    exact runMwLoop_complete mws ctx hall
  · simp only [Router.ServeHTTP, hf, hh]
    rw [if_pos hm]

/-- C5 witness: a two-middleware chain on a concrete fresh context — the
first only populates the response, the second aborts — stops with `false`
at the aborting middleware, keeping the response the first one set. -/
theorem middleware_chain_spec_witness :
    runMiddlewares [fun c => c.withResp (fun r => r.Text "early"), fun c => c.Abort]
        (CreateContext "GET" "/t")
      = (false, Context.Abort ((CreateContext "GET" "/t").withResp (fun r => r.Text "early"))) := by
  rw [middleware_chain_spec.2.1 _ _ _ rfl rfl]
  exact middleware_chain_spec.2.2.1 _ _ _ rfl rfl

theorem foldl_setvar_not_mem (l : List (String × Nat)) (g : String × Nat → GyrValue)
    (ctx : Context) (name : String) (h : name ∉ l.map Prod.fst) :
    (l.foldl (fun c nv => c.SetVariable nv.1 (g nv)) ctx).Variable name = ctx.Variable name := by
  induction l generalizing ctx with
  | nil => rfl
  | cons hd tl ih =>
    simp only [List.map_cons, List.mem_cons] at h
    push_neg at h
    simp only [List.foldl_cons]
    rw [ih _ h.2]
    show getAssoc (setAssoc ctx.vars hd.1 (g hd)) name = getAssoc ctx.vars name
    exact getAssoc_setAssoc_other _ _ _ _ h.1

theorem foldl_setvar_mem (l : List (String × Nat)) (g : String × Nat → GyrValue)
    (ctx : Context) (name : String) (idx : Nat) (hnd : (l.map Prod.fst).Nodup)
    (hmem : (name, idx) ∈ l) :
    (l.foldl (fun c nv => c.SetVariable nv.1 (g nv)) ctx).Variable name = some (g (name, idx)) := by
  induction l generalizing ctx with
  | nil => cases hmem
  | cons hd tl ih =>
    simp only [List.map_cons, List.nodup_cons] at hnd
    rcases List.mem_cons.mp hmem with heq | hmem2
    · subst heq
      simp only [List.foldl_cons]
      rw [foldl_setvar_not_mem tl g _ name hnd.1]
      show getAssoc (setAssoc ctx.vars name (g (name, idx))) name = some (g (name, idx))
      exact getAssoc_setAssoc_self _ _ _
    · simp only [List.foldl_cons]
      exact ih _ hnd.2 hmem2

set_option maxRecDepth 10000 in
/-- C4: variable binding splits the raw request path on `/` and, for each
declared variable, stores in the context variable bag the raw segment at
the recorded template index, coerced by trying in order integer parse,
floating-point parse, the literal tokens `true`/`false` as a boolean, and
otherwise the raw string; in particular the segment `27` binds as the
integer 27, `10.3` as the (exact decimal of the) float 10.3, `false` as
the boolean false, and `test-test` as the string `test-test`, and the
template `/with-var/:v` records variable `v` at split index 2. The extra
conjuncts pin the `strconv.ParseFloat` edges down: `Inf` and `NaN` parse
as floats, an out-of-range literal like `1e309` fails with Go's
`ErrRange` and falls back to the string, the in-range `1e308` stays a
float, and hexadecimal (`0x1p-2`) and underscored (`1_0`) literals bind
as floats. -/
theorem extract_variables_binding :
    (∀ (route : Route) (ctx : Context) (name : String) (idx : Nat),
      (route.vars.map Prod.fst).Nodup → (name, idx) ∈ route.vars →
      (extractVariablesIntoContext route ctx).Variable name
        = some (coerceValue (String.mk (((splitChar '/' ctx.path.data).get? idx).getD [])))) ∧
    coerceValue "27" = GyrValue.int 27 ∧
    coerceValue "10.3" = GyrValue.float (GoFloat.finite (mkRat 103 10)) ∧
    coerceValue "false" = GyrValue.bool false ∧
    coerceValue "test-test" = GyrValue.str "test-test" ∧
    coerceValue "Inf" = GyrValue.float (GoFloat.inf false) ∧
    coerceValue "NaN" = GyrValue.float GoFloat.nan ∧
    coerceValue "1e309" = GyrValue.str "1e309" ∧
    coerceValue "1e308" = GyrValue.float (GoFloat.finite ((10 ^ 308 : Nat) : Rat)) ∧
    coerceValue "0x1p-2" = GyrValue.float (GoFloat.finite (mkRat 1 4)) ∧
    coerceValue "1_0" = GyrValue.float (GoFloat.finite 10) ∧
    (createRoute "/with-var/:v").vars = [("v", 2)] := by
  refine ⟨fun route ctx name idx hnd hmem => ?_, by decide, by decide, by decide, by decide,
    by decide, by decide, by decide, by decide, by decide, by decide, by decide⟩
  exact foldl_setvar_mem route.vars
    (fun nv => coerceValue (String.mk (((splitChar '/' ctx.path.data).get? nv.2).getD [])))
    ctx name idx hnd hmem

/-- C4 witness: dispatch-style extraction on the concrete route
`/with-var/:v` and raw path `/with-var/27` binds `v` to the integer 27. -/
theorem extract_variables_binding_witness :
    (extractVariablesIntoContext (createRoute "/with-var/:v")
        (CreateContext "GET" "/with-var/27")).Variable "v"
      = some (GyrValue.int 27) := by
  rw [extract_variables_binding.1 (createRoute "/with-var/:v") _ "v" 2 (by decide) (by decide)]
  decide

theorem foldl_setvar_response (l : List (String × Nat)) (g : String × Nat → GyrValue)
    (ctx : Context) :
    (l.foldl (fun c nv => c.SetVariable nv.1 (g nv)) ctx).response = ctx.response := by
  induction l generalizing ctx with
  | nil => rfl
  | cons hd tl ih => exact (ih _).trans rfl

theorem extract_response (route : Route) (ctx : Context) :
    (extractVariablesIntoContext route ctx).response = ctx.response :=
  foldl_setvar_response route.vars
    (fun nv => coerceValue (String.mk (((splitChar '/' ctx.path.data).get? nv.2).getD []))) ctx

theorem runMwLoop_noSend (mws : List (Context → Context)) (ctx : Context)
    (h : ∀ m ∈ mws, MwNoSend m) :
    (runMwLoop mws ctx).2.response.sent = ctx.response.sent ∧
    (runMwLoop mws ctx).2.response.wasSent = ctx.response.wasSent := by
  induction mws generalizing ctx with
  | nil => exact ⟨rfl, rfl⟩
  | cons m rest ih =>
    have hm := h m (List.mem_cons_self m rest)
    have hrest := fun m1 hm1 => h m1 (List.mem_cons_of_mem m hm1)
    have e : runMwLoop (m :: rest) ctx
        = if (m ctx).aborted then ((false : Bool), m ctx) else runMwLoop rest (m ctx) := rfl
    rw [e]
    cases ha : (m ctx).aborted
    · simp only [Bool.false_eq_true, if_false]
      exact ⟨(ih (m ctx) hrest).1.trans (hm ctx).1, (ih (m ctx) hrest).2.trans (hm ctx).2⟩
    · simp only [if_true]
      exact ⟨(hm ctx).1, (hm ctx).2⟩

theorem runMiddlewares_noSend (mws : List (Context → Context)) (ctx : Context)
    (h : ∀ m ∈ mws, MwNoSend m) :
    (runMiddlewares mws ctx).2.response.sent = ctx.response.sent ∧
    (runMiddlewares mws ctx).2.response.wasSent = ctx.response.wasSent := by
  unfold runMiddlewares
  cases ha : ctx.aborted
  · simpa using runMwLoop_noSend mws ctx h
  · simp

theorem invokeHandler_single_send (handler : Context → Context) (ctx : Context)
    (hso : SendsAtMostOnce handler) (hw : ctx.response.wasSent = false)
    (hs : ctx.response.sent = []) :
    (invokeHandler handler ctx).response.sent.length = 1 := by
  rcases hso ctx hw hs with ⟨h1, h2⟩ | ⟨h1, h2⟩
  · simp [invokeHandler, h1, h2, Context.withResp, Response.Send]
  · simp [invokeHandler, h1, h2]

/-- C2 (amended): provided every interceptor leaves the send log and the
`wasSent` flag alone (interceptors populate the response but do not send
it) and every registered handler sends at most once through the response
API, each dispatch writes exactly one response: the 404, 405 and
chain-abort paths send exactly once unconditionally, and the
handler-invoked path sends exactly once because the dispatcher sends only
when the handler has not already sent, tracked by `wasSent`. Without the
proviso the guarantee fails — see the counterexample, where an
interceptor that sends and then aborts produces a second send because the
abort path sends unconditionally. -/
theorem dispatch_single_send :
    ∀ (router : Router) (method path : String),
      (∀ m ∈ router.middlewares, MwNoSend m) →
      (∀ route : Route, router.FindRoute path = some route →
        (∀ m ∈ route.middlewares, MwNoSend m) ∧
        (∀ (mth : String) (h : Context → Context),
          getAssoc route.handlers mth = some h → SendsAtMostOnce h)) →
      (router.ServeHTTP method path).response.sent.length = 1 := by
  intro router method path hg hr
  cases hf : router.FindRoute path with
  | none => simp only [Router.ServeHTTP, hf]; rfl
  | some route =>
    obtain ⟨hmw, hhs⟩ := hr route hf
    cases hh : getAssoc route.handlers method with
    | none => simp only [Router.ServeHTTP, hf, hh]; rfl
    | some handler =>
      have hso := hhs method handler hh
      simp only [Router.ServeHTTP, hf, hh]
      have hCresp :
          (if route.vars.length > 0 then extractVariablesIntoContext route (CreateContext method path)
           else CreateContext method path).response
            = (CreateContext method path).response := by
        by_cases hv : route.vars.length > 0
        · rw [if_pos hv]; exact extract_response route (CreateContext method path)
        · rw [if_neg hv]
      set C := if route.vars.length > 0 then extractVariablesIntoContext route (CreateContext method path)
        else CreateContext method path with hC
      have hM : ∀ m ∈ router.middlewares ++ route.middlewares, MwNoSend m := by
        intro m hm
        rcases List.mem_append.mp hm with h1 | h1
        · exact hg m h1
        · exact hmw m h1
      have hns := runMiddlewares_noSend (router.middlewares ++ route.middlewares) C hM
      by_cases hbm : route.middlewares.length > 0 ∨ router.middlewares.length > 0
      · rw [if_pos hbm]
        cases hok : (runMiddlewares (router.middlewares ++ route.middlewares) C).1
        · simp only [hok, Bool.false_eq_true, if_false]
          have hsent : (runMiddlewares (router.middlewares ++ route.middlewares) C).2.response.sent
              = [] := by rw [hns.1, hCresp]; rfl
          simp [Context.withResp, Response.Send, hsent]
        · simp only [hok, if_true]
          exact invokeHandler_single_send handler _ hso
            (by rw [hns.2, hCresp]; rfl) (by rw [hns.1, hCresp]; rfl)
      · rw [if_neg hbm]
        exact invokeHandler_single_send handler C hso
          (by rw [hCresp]; rfl) (by rw [hCresp]; rfl)

/-- C2 counterexample: a dispatch during which a route-local interceptor
sends the response and then aborts performs two sends — the claim that a
second send never happens within a single dispatch is false on the code,
because the chain-abort path of `ServeHTTP` sends unconditionally. -/
theorem dispatch_double_send_counterexample :
    ((Router.mk
        [RouterMatchable.route (((createRoute "/").Get (fun c => c)).Middleware
          [fun c => (c.withResp Response.Send).Abort])]
        []).ServeHTTP "GET" "/").response.sent.length = 2 := by
  simp +decide [Router.ServeHTTP, Router.FindRoute, searchRoute]

/-- C2 witness: a concrete dispatch with an interceptor that only
populates the response and a handler that does not send on its own
results in exactly one send. -/
theorem dispatch_single_send_witness :
    ((Router.mk
        [RouterMatchable.route (((createRoute "/w").Get (fun c => c)).Middleware
          [fun c => c.withResp (fun r => r.Text "hi")])]
        []).ServeHTTP "GET" "/w").response.sent.length = 1 := by
  apply dispatch_single_send
  · intro m hm
    cases hm
  · intro route hroute
    have hr : route = ((createRoute "/w").Get (fun c => c)).Middleware
        [fun c => c.withResp (fun r => r.Text "hi")] := by
      have : Router.FindRoute
          (Router.mk [RouterMatchable.route (((createRoute "/w").Get (fun c => c)).Middleware
            [fun c => c.withResp (fun r => r.Text "hi")])] []) "/w"
          = some (((createRoute "/w").Get (fun c => c)).Middleware
            [fun c => c.withResp (fun r => r.Text "hi")]) := by
        simp +decide [Router.FindRoute, searchRoute, RouterMatchable.MatchesPath]
      rw [this] at hroute
      exact (Option.some_inj.mp hroute).symm
    subst hr
    constructor
    · intro m hm
      have hm2 : m = fun c => c.withResp (fun r => r.Text "hi") := by
        simpa [Route.Middleware, Route.Get, Route.method, createRoute] using hm
      subst hm2
      intro ctx
      exact ⟨rfl, rfl⟩
    · intro mth h hget
      have hm2 : h = fun c => c := by
        by_cases hq : mth = "GET"
        · subst hq
          have h2 := hget
          simp [Route.Middleware, Route.Get, Route.method, createRoute, setAssoc, getAssoc] at h2
          exact h2.symm
        · have hq2 : ("GET" : String) ≠ mth := fun e => hq e.symm
          simp [Route.Middleware, Route.Get, Route.method, createRoute, setAssoc, getAssoc, hq2]
            at hget
      subst hm2
      intro ctx hw hs
      exact Or.inl ⟨hw, hs⟩

theorem plainChar_ne_dot {c : Char} (h : plainChar c = true) : c ≠ '.' := by
  intro he
  subst he
  simp [plainChar] at h

theorem map_plain_eq_map_ch {l : List Char} (h : l.all plainChar = true) :
    l.map (fun c => if c = '.' then RAtom.dot else RAtom.ch c) = l.map RAtom.ch := by
  induction l with
  | nil => rfl
  | cons c cs ih =>
    simp only [List.all_cons, Bool.and_eq_true] at h
    simp only [List.map_cons, if_neg (plainChar_ne_dot h.1), ih h.2]

theorem reMatch_lit_append (l : List Char) (rs : List RAtom) :
    ∀ cs : List Char, reMatch (l.map RAtom.ch ++ rs) cs = true ↔
      ∃ cs2, cs = l ++ cs2 ∧ reMatch rs cs2 = true := by
  induction l with
  | nil =>
    intro cs
    simp
  | cons a l ih =>
    intro cs
    match cs with
    | [] =>
      simp only [List.map_cons, List.cons_append]
      constructor
      · intro h
        simp [reMatch] at h
      · rintro ⟨cs2, hcs, _⟩
        simp at hcs
    | c :: cs1 =>
      simp only [List.map_cons, List.cons_append]
      show (a == c && reMatch (l.map RAtom.ch ++ rs) cs1) = true ↔ _
      rw [Bool.and_eq_true, beq_iff_eq, ih cs1]
      constructor
      · rintro ⟨hac, cs2, hcs, hr⟩
        exact ⟨cs2, by rw [hac, hcs], hr⟩
      · rintro ⟨cs2, hcs, hr⟩
        injection hcs with h1 h2
        exact ⟨h1.symm, cs2, h2, hr⟩

theorem reMatch_clsPlus (rs : List RAtom) :
    ∀ cs : List Char, reMatch (RAtom.clsPlus :: rs) cs = true ↔
      ∃ v cs2, cs = v ++ cs2 ∧ v ≠ [] ∧ v.all varClass = true ∧ reMatch rs cs2 = true := by
  intro cs
  induction cs with
  | nil =>
    constructor
    · intro h
      simp [reMatch] at h
    · rintro ⟨v, cs2, hcs, hv, -, -⟩
      exact absurd (List.append_eq_nil.mp hcs.symm).1 hv
  | cons c cs1 ih =>
    show (varClass c && (reMatch rs cs1 || reMatch (RAtom.clsPlus :: rs) cs1)) = true ↔ _
    rw [Bool.and_eq_true, Bool.or_eq_true, ih]
    constructor
    · rintro ⟨hc, hrest | ⟨v, cs2, hcs, hv, hall, hr⟩⟩
      · exact ⟨[c], cs1, rfl, by simp, by simp [hc], hrest⟩
      · exact ⟨c :: v, cs2, by rw [hcs, List.cons_append], by simp,
          by simp [List.all_cons, hc, hall], hr⟩
    · rintro ⟨v, cs2, hcs, hv, hall, hr⟩
      match v, hv with
      | c0 :: v1, _ =>
        rw [List.cons_append] at hcs
        injection hcs with h1 h2
        subst h1
        simp only [List.all_cons, Bool.and_eq_true] at hall
        refine ⟨hall.1, ?_⟩
        match v1 with
        | [] => exact Or.inl (h2 ▸ hr)
        | c1 :: v2 => exact Or.inr ⟨c1 :: v2, cs2, h2, by simp, hall.2, hr⟩

theorem segs_reMatch_iff :
    ∀ (segs : List (List Char)) (cs : List Char),
      (∀ s ∈ segs, s ≠ []) →
      (∀ s ∈ segs, s.head? ≠ some ':' → s.all plainChar = true) →
      (reMatch (segs.flatMap segAtoms) cs = true ↔ SegsAccept segs cs) := by
  intro segs
  induction segs with
  | nil =>
    intro cs _ _
    rw [List.flatMap_nil]
    constructor
    · intro h
      have h2 : cs = [] := by
        cases cs with
        | nil => rfl
        | cons c cs1 => simp [reMatch] at h
      subst h2
      exact SegsAccept.nil
    · intro h
      cases h
      rfl
  | cons s segs ih =>
    intro cs hne hplain
    have hne2 := fun s1 h1 => hne s1 (List.mem_cons_of_mem s h1)
    have hplain2 := fun s1 h1 => hplain s1 (List.mem_cons_of_mem s h1)
    rw [List.flatMap_cons]
    by_cases hs : s.head? = some ':'
    · rw [show segAtoms s = [RAtom.ch '/', RAtom.clsPlus] from by rw [segAtoms, if_pos hs]]
      match cs with
      | [] =>
        constructor
        · intro h
          simp [reMatch] at h
        · intro h
          cases h
      | c :: cs1 =>
        show (('/' == c) && reMatch (RAtom.clsPlus :: segs.flatMap segAtoms) cs1) = true ↔ _
        rw [Bool.and_eq_true, beq_iff_eq, reMatch_clsPlus]
        constructor
        · rintro ⟨hc, v, cs2, hcs, hv, hall, hr⟩
          subst hc
          rw [hcs]
          exact SegsAccept.varCase s segs v cs2 hs hv hall ((ih cs2 hne2 hplain2).mp hr)
        · intro h
          cases h with
          | lit seg1 segs1 rest hseg1 h1 => exact absurd hs hseg1
          | varCase seg1 segs1 v rest hseg1 hv hall h1 =>
            exact ⟨rfl, v, rest, rfl, hv, hall, (ih rest hne2 hplain2).mpr h1⟩
    · have hall := hplain s (List.mem_cons_self s segs) hs
      rw [show segAtoms s = RAtom.ch '/' :: s.map RAtom.ch from by
        rw [segAtoms, if_neg hs, map_plain_eq_map_ch hall]]
      match cs with
      | [] =>
        constructor
        · intro h
          simp [reMatch] at h
        · intro h
          cases h
      | c :: cs1 =>
        show (('/' == c) && reMatch (s.map RAtom.ch ++ segs.flatMap segAtoms) cs1) = true ↔ _
        rw [Bool.and_eq_true, beq_iff_eq, reMatch_lit_append]
        constructor
        · rintro ⟨hc, cs2, hcs, hr⟩
          subst hc
          rw [hcs]
          exact SegsAccept.lit s segs cs2 hs ((ih cs2 hne2 hplain2).mp hr)
        · intro h
          cases h with
          | lit seg1 segs1 rest hseg1 h1 =>
            exact ⟨rfl, rest, rfl, (ih rest hne2 hplain2).mpr h1⟩
          | varCase seg1 segs1 v rest hseg1 hv hall1 h1 => exact absurd hseg1 hs

theorem foldl_regexStep_pattern :
    ∀ (parts : List (List Char)) (n : Nat) (acc : List RAtom × List (String × Nat)),
      ((List.enumFrom n parts).foldl regexStep acc).1 = acc.1 ++ patternOf parts := by
  intro parts
  induction parts with
  | nil => intro n acc; simp [patternOf]
  | cons p ps ih =>
    intro n acc
    show ((List.enumFrom (n + 1) ps).foldl regexStep (regexStep acc (n, p))).1 = _
    rw [ih (n + 1) (regexStep acc (n, p))]
    have hstep : (regexStep acc (n, p)).1 = acc.1 ++ emitAtoms p := by
      by_cases hemp : p.isEmpty
      · simp [regexStep, emitAtoms, hemp]
      · by_cases hcol : p.head? = some ':'
        · simp [regexStep, emitAtoms, segAtoms, hemp, hcol]
        · simp [regexStep, emitAtoms, segAtoms, hemp, hcol]
    rw [hstep, List.append_assoc]
    simp [patternOf]

theorem patternOf_eq_filter (parts : List (List Char)) :
    patternOf parts = (parts.filter (fun p => !p.isEmpty)).flatMap segAtoms := by
  induction parts with
  | nil => rfl
  | cons p ps ih =>
    by_cases hemp : p.isEmpty
    · have h1 : patternOf (p :: ps) = patternOf ps := by
        simp [patternOf, emitAtoms, hemp]
      have h2 : List.filter (fun q => !q.isEmpty) (p :: ps)
          = List.filter (fun q => !q.isEmpty) ps := by
        rw [List.filter_cons, if_neg (by simp [hemp])]
      rw [h1, h2, ih]
    · have h1 : patternOf (p :: ps) = segAtoms p ++ patternOf ps := by
        simp [patternOf, emitAtoms, hemp]
      have h2 : List.filter (fun q => !q.isEmpty) (p :: ps)
          = p :: List.filter (fun q => !q.isEmpty) ps := by
        rw [List.filter_cons, if_pos (by simp [hemp])]
      rw [h1, h2, List.flatMap_cons, ih]

theorem createRoute_pattern_eq (tmpl : String) (h : tmpl ≠ "/") :
    (createRoute tmpl).pattern
      = ((splitChar '/' tmpl.data).filter (fun p => !p.isEmpty)).flatMap segAtoms := by
  show (createPathRegex tmpl).1 = _
  rw [createPathRegex, if_neg h]
  show ((List.enum (splitChar '/' tmpl.data)).foldl regexStep ([], [])).1 = _
  rw [show List.enum (splitChar '/' tmpl.data) = List.enumFrom 0 (splitChar '/' tmpl.data) from rfl]
  rw [foldl_regexStep_pattern, patternOf_eq_filter]
  rfl

/-- C3 (amended): for every non-root template whose literal segments
contain only plain characters (letters, digits, hyphen, underscore — no
regex metacharacters), the compiled matcher accepts a path exactly when
the path consists of the template's non-empty slash-separated segments in
order, literal segments verbatim and each variable segment as one or more
characters of the class letters, digits, hyphen, period (never a slash);
the pattern is anchored, so in particular `/test/test` is rejected by the
template `/test`. For literal segments outside that restriction the
claim's "verbatim" reading is false on the code: segment text is written
into the pattern unescaped, so a `.` in a literal segment acts as the
regex wildcard — see the counterexample. -/
theorem matcher_accepts_iff_segments :
    (∀ (tmpl path : String), tmpl ≠ "/" →
      (∀ s ∈ splitChar '/' tmpl.data, s.head? ≠ some ':' → s.all plainChar = true) →
      ((createRoute tmpl).MatchesPath path = true ↔
        SegsAccept ((splitChar '/' tmpl.data).filter (fun s => !s.isEmpty)) path.data)) ∧
    (createRoute "/test").MatchesPath "/test/test" = false := by
  refine ⟨fun tmpl path hne hplain => ?_, by decide⟩
  show reMatch (createRoute tmpl).pattern path.data = true ↔ _
  rw [createRoute_pattern_eq tmpl hne]
  apply segs_reMatch_iff
  · intro s hmem
    have := (List.mem_filter.mp hmem).2
    simpa [List.isEmpty_iff] using this
  · intro s hmem
    exact hplain s (List.mem_filter.mp hmem).1

theorem SegsAccept_cons_inv {seg : List Char} {segs : List (List Char)} {cs : List Char}
    (h : SegsAccept (seg :: segs) cs) :
    (seg.head? ≠ some ':' ∧ ∃ rest, cs = '/' :: (seg ++ rest) ∧ SegsAccept segs rest) ∨
    (seg.head? = some ':' ∧ ∃ v rest, cs = '/' :: (v ++ rest) ∧ v ≠ [] ∧
      v.all varClass = true ∧ SegsAccept segs rest) := by
  cases h with
  | lit s ss rest hs hrest => exact Or.inl ⟨hs, rest, rfl, hrest⟩
  | varCase s ss v rest hs hv hall hrest => exact Or.inr ⟨hs, v, rest, rfl, hv, hall, hrest⟩

/-- C3 counterexample: the template `/a.b` accepts the path `/axb`, whose
single segment `axb` is neither the literal segment `a.b` verbatim nor a
variable segment, so the compiled matcher does not match literal segments
verbatim: the dot is written into the pattern unescaped and acts as the
regex wildcard. -/
theorem matcher_literal_dot_counterexample :
    (createRoute "/a.b").MatchesPath "/axb" = true ∧
    ¬ SegsAccept ((splitChar '/' "/a.b".data).filter (fun s => !s.isEmpty)) "/axb".data := by
  refine ⟨by decide, ?_⟩
  have e : (splitChar '/' "/a.b".data).filter (fun s => !s.isEmpty) = [['a', '.', 'b']] := by decide
  rw [e]
  intro h
  rcases SegsAccept_cons_inv h with ⟨hseg, rest, hcs, h2⟩ | ⟨hseg, v, rest, hcs, hv, hall, h2⟩
  · simp +decide at hcs
  · simp at hseg

/-- C3 witness: the template `/test/:v` (plain literal segment, one
variable segment) accepts the concrete path `/test/a-1.b`. -/
theorem matcher_accepts_iff_segments_witness :
    (createRoute "/test/:v").MatchesPath "/test/a-1.b" = true := by
  apply (matcher_accepts_iff_segments.1 "/test/:v" "/test/a-1.b" (by decide) (by decide)).mpr
  have e : (splitChar '/' "/test/:v".data).filter (fun s => !s.isEmpty)
      = [['t', 'e', 's', 't'], [':', 'v']] := by decide
  rw [e]
  show SegsAccept _ ('/' :: (['t', 'e', 's', 't'] ++ ('/' :: (['a', '-', '1', '.', 'b'] ++ []))))
  exact SegsAccept.lit _ _ _ (by decide)
    (SegsAccept.varCase _ _ _ _ (by decide) (by decide) (by decide) SegsAccept.nil)

end Gyr
